import Mathlib

/-!
# Verification of the SimSIMD similarity kernels

Shallow embedding of `include/simsimd/simsimd.h`: SIMD-accelerated inner
product, cosine similarity, Euclidean distance and Hamming distance kernels
for SVE, NEON and AVX2.

Modelling conventions:
* `f32`/`f16` lane values are idealized as real numbers (the claims are all
  stated "up to floating-point rounding"), 8-bit integer lanes as integers
  with explicit wrap-around (`% 2^16` on the 16-bit accumulator lanes),
  packed-bit bytes as naturals `< 256` with explicit `% 256` where the
  hardware registers wrap.
* A wide register is a function `ℕ → α` of which only the first `w` lanes
  are observed; horizontal reductions sum over `Finset.range w`.
* An SVE vector has an implementation-defined lane count `w = svcntw()`
  (resp. `svcnth`, `svcntb`); the kernels are parametrized by it.
* A `whilelt` predicate starting at offset `i` with bound `d` activates
  lane `j` iff `i + j < d`; `svld1` returns `0` in inactive lanes, so a
  multiply-accumulate on loaded values adds exactly the in-bounds products.
* The NEON/AVX2 kernels loop `for (i = 0; i != d; i += c)` with a constant
  stride `c`; when `c ∣ d` the loop runs `d / c` times, which is how the
  fixed-width kernels are modelled (the exit condition itself is analysed
  separately via `strideHits`).
-/

open Finset

/-- One strided SIMD loop: starting from offset `i`, apply the loop body
`step i` to the state, advance the offset by the fixed increment `w`, and
repeat for `n` iterations in total. -/
def strideFold {σ : Type} (w : ℕ) (step : ℕ → σ → σ) : ℕ → ℕ → σ → σ
  | 0, _, s => s
  | n + 1, i, s => strideFold w step n (i + w) (step i s)

/-- Body of a predicated SVE accumulation loop at offset `i`: lane `j` is
active when `i + j < d` (`svwhilelt`), the loads return `0` on inactive
lanes, and the accumulator lane `j` grows by the loaded contribution
`g (i + j)`. -/
def sveStep {M : Type} [AddCommMonoid M] (g : ℕ → M) (d : ℕ) (i : ℕ)
    (acc : ℕ → M) : ℕ → M :=
  fun j => acc j + if i + j < d then g (i + j) else 0

/-- Body of an unpredicated fixed-width accumulation loop at offset `i`:
every lane `j` of the accumulator grows by `g (i + j)`. -/
def fixedStep {M : Type} [AddCommMonoid M] (g : ℕ → M) (i : ℕ)
    (acc : ℕ → M) : ℕ → M :=
  fun j => acc j + g (i + j)

/-- Iteration count of an SVE `do { ... } while (svptest_any(whilelt i d))`
loop over `d` elements with `w` lanes: `⌈d / w⌉`, but at least `1` because
the body runs once before the first test. -/
def sveIters (w d : ℕ) : ℕ := max ((d + w - 1) / w) 1

/-- `simsimd_dot_f32sve` (SVE branch): predicated multiply-accumulate of
`a[i] * b[i]` into a `w`-lane register (`w = svcntw()`), followed by the
`svaddv` horizontal reduction over all lanes. -/
noncomputable def simsimd_dot_f32sve (w : ℕ) (a b : ℕ → ℝ) (d : ℕ) : ℝ :=
  ∑ j ∈ Finset.range w,
    strideFold w (sveStep (fun k => a k * b k) d) (sveIters w d) 0 (fun _ => 0) j

/-- The three accumulators of `simsimd_cos_f32sve` (`ab`, `a2`, `b2`),
updated together by the single predicated SVE loop. -/
noncomputable def cosFoldsSve (w : ℕ) (a b : ℕ → ℝ) (d n : ℕ) :
    (ℕ → ℝ) × (ℕ → ℝ) × (ℕ → ℝ) :=
  strideFold w
    (fun i p => (sveStep (fun k => a k * b k) d i p.1,
                 sveStep (fun k => a k * a k) d i p.2.1,
                 sveStep (fun k => b k * b k) d i p.2.2))
    n 0 ((fun _ => 0), (fun _ => 0), (fun _ => 0))

/-- `simsimd_cos_f32sve` (SVE branch): accumulate `a*b`, `a*a`, `b*b` in one
predicated loop, reduce each register with `svaddv`, and return
`ab / (sqrt(a2) * sqrt(b2))` — the division is performed unconditionally,
with no guard against a zero denominator. -/
noncomputable def simsimd_cos_f32sve (w : ℕ) (a b : ℕ → ℝ) (d : ℕ) : ℝ :=
  (∑ j ∈ Finset.range w, (cosFoldsSve w a b d (sveIters w d)).1 j) /
    (Real.sqrt (∑ j ∈ Finset.range w, (cosFoldsSve w a b d (sveIters w d)).2.1 j) *
     Real.sqrt (∑ j ∈ Finset.range w, (cosFoldsSve w a b d (sveIters w d)).2.2 j))

/-- `simsimd_euclidean_f32sve` (SVE branch): predicated accumulation of
`(a[i] - b[i])^2`, `svaddv` reduction, and then `sqrt` of the total —
the function returns the square root of the sum, not the sum itself. -/
noncomputable def simsimd_euclidean_f32sve (w : ℕ) (a b : ℕ → ℝ) (d : ℕ) : ℝ :=
  Real.sqrt (∑ j ∈ Finset.range w,
    strideFold w (sveStep (fun k => (a k - b k) * (a k - b k)) d)
      (sveIters w d) 0 (fun _ => 0) j)

/-- `simsimd_euclidean_f16sve` (SVE branch), half-precision lanes idealized
over ℝ with `w = svcnth()`: same square-root-of-sum computation as the f32
variant, except that the result is returned through
`static_cast<simsimd_f16_t>` where `simsimd_f16_t` is a typedef of
`int16_t` — a numeric float-to-integer conversion truncating toward zero
(the square root is nonnegative, so truncation is the floor). -/
noncomputable def simsimd_euclidean_f16sve (w : ℕ) (a b : ℕ → ℝ) (d : ℕ) : ℤ :=
  ⌊Real.sqrt (∑ j ∈ Finset.range w,
    strideFold w (sveStep (fun k => (a k - b k) * (a k - b k)) d)
      (sveIters w d) 0 (fun _ => 0) j)⌋

/-- `simsimd_dot_f32x4neon` (NEON branch): 4-lane `vmlaq_f32` accumulation
with stride 4 (`d / 4` iterations when the loop `i != d` terminates),
reduced by `vaddvq_f32`. -/
noncomputable def simsimd_dot_f32x4neon (a b : ℕ → ℝ) (d : ℕ) : ℝ :=
  ∑ j ∈ Finset.range 4,
    strideFold 4 (fixedStep (fun k => a k * b k)) (d / 4) 0 (fun _ => 0) j

/-- `_mm_hadd_ps(v, v)`: pairwise horizontal add of a 4-lane register with
itself, giving `[v0+v1, v2+v3, v0+v1, v2+v3]`. -/
noncomputable def mm_hadd_ps_dup (v : ℕ → ℝ) : ℕ → ℝ := fun j =>
  if j = 0 then v 0 + v 1
  else if j = 1 then v 2 + v 3
  else if j = 2 then v 0 + v 1
  else if j = 3 then v 2 + v 3
  else 0

/-- `simsimd_dot_f32x4avx2` (AVX2 branch): 4-lane `_mm_fmadd_ps`
accumulation with stride 4, reduced by two `_mm_hadd_ps` steps; the final
`_mm_cvtsi128_si32` / union bit-cast extraction of lane 0 is the identity
on the lane value. -/
noncomputable def simsimd_dot_f32x4avx2 (a b : ℕ → ℝ) (d : ℕ) : ℝ :=
  mm_hadd_ps_dup (mm_hadd_ps_dup
    (strideFold 4 (fixedStep (fun k => a k * b k)) (d / 4) 0 (fun _ => 0))) 0

/-- The three accumulators (`ab`, `a2`, `b2`) of the fixed-width cosine
kernels (`simsimd_cos_f32x4neon` / `simsimd_cos_f32x4avx2`), updated
together by the single stride-4 loop. -/
noncomputable def cosFoldsFixed (a b : ℕ → ℝ) (n : ℕ) : (ℕ → ℝ) × (ℕ → ℝ) × (ℕ → ℝ) :=
  strideFold 4
    (fun i p => (fixedStep (fun k => a k * b k) i p.1,
                 fixedStep (fun k => a k * a k) i p.2.1,
                 fixedStep (fun k => b k * b k) i p.2.2))
    n 0 ((fun _ => 0), (fun _ => 0), (fun _ => 0))

/-- `simsimd_cos_f32x4neon` (NEON branch): three 4-lane accumulators in one
stride-4 loop, `vaddvq_f32` reductions, unguarded division
`ab / (sqrt(a2) * sqrt(b2))`. -/
noncomputable def simsimd_cos_f32x4neon (a b : ℕ → ℝ) (d : ℕ) : ℝ :=
  (∑ j ∈ Finset.range 4, (cosFoldsFixed a b (d / 4)).1 j) /
    (Real.sqrt (∑ j ∈ Finset.range 4, (cosFoldsFixed a b (d / 4)).2.1 j) *
     Real.sqrt (∑ j ∈ Finset.range 4, (cosFoldsFixed a b (d / 4)).2.2 j))

/-- `simsimd_cos_f32x4avx2` (AVX2 branch): three 4-lane accumulators in one
stride-4 loop, each reduced by two `_mm_hadd_ps` steps and bit-cast lane-0
extraction, then the unguarded division `ab / (sqrt(a2) * sqrt(b2))`. -/
noncomputable def simsimd_cos_f32x4avx2 (a b : ℕ → ℝ) (d : ℕ) : ℝ :=
  mm_hadd_ps_dup (mm_hadd_ps_dup (cosFoldsFixed a b (d / 4)).1) 0 /
    (Real.sqrt (mm_hadd_ps_dup (mm_hadd_ps_dup (cosFoldsFixed a b (d / 4)).2.1) 0) *
     Real.sqrt (mm_hadd_ps_dup (mm_hadd_ps_dup (cosFoldsFixed a b (d / 4)).2.2) 0))

/-- Population count of a byte value (`vcnt_u8` / `svcnt_u8` on one lane):
number of set bits among the 8 low bits. -/
def popcnt8 (x : ℕ) : ℕ :=
  x % 2 + x / 2 % 2 + x / 4 % 2 + x / 8 % 2 +
    x / 16 % 2 + x / 32 % 2 + x / 64 % 2 + x / 128 % 2

/-- Body of the `simsimd_hamming_u1x128sve` loop (which is written with
NEON intrinsics): lane `j` of the 16-byte accumulator grows by the
population count of `a[i+j] XOR b[i+j]`, wrapping modulo 256 because the
lanes are `uint8`. -/
def hammingStep (a b : ℕ → ℕ) (i : ℕ) (acc : ℕ → ℕ) : ℕ → ℕ :=
  fun j => (acc j + popcnt8 (Nat.xor (a (i + j)) (b (i + j)))) % 256

/-- `simsimd_hamming_u1x128sve` (NEON body, despite the name): 16-byte
chunks, per-byte `veorq_u8` + `vcntq_u8` accumulated into `uint8` lanes
(`vaddq_u8`, wrapping mod 256), reduced by `vaddvq_u8`, whose result is
itself a `uint8_t` and therefore also wraps mod 256.  `d` counts bytes
(the loop offsets the byte pointers by `d` in steps of 16). -/
def simsimd_hamming_u1x128sve (a b : ℕ → ℕ) (d : ℕ) : ℕ :=
  (∑ j ∈ Finset.range 16,
    strideFold 16 (hammingStep a b) (d / 16) 0 (fun _ => 0) j) % 256

/-- `svwhilelt_b8 i d` viewed as a byte-granular predicate: byte lane `j`
is active iff `i + j < d`. -/
def pgB8 (i d : ℕ) : ℕ → Bool := fun j => decide (i + j < d)

/-- `svwhilelt_b32 i d` viewed as a byte-granular predicate: SVE predicates
carry one bit per byte, and a 32-bit-element `whilelt` sets only the bit of
the lowest byte of each active 32-bit element — byte lane `j` is active iff
`j % 4 = 0` and element `j / 4` satisfies `i + j / 4 < d`. -/
def pgB32 (i d : ℕ) : ℕ → Bool := fun j => decide (j % 4 = 0 ∧ i + j / 4 < d)

/-- Loop of `simsimd_hamming_u1x8sve`: `n` remaining iterations, current
offset `i`, current predicate `pg` (a byte-granular view of `pg_vec`), and
the `uint8` accumulator lanes.  Each iteration performs predicated byte
loads (`0` in inactive lanes), `sveor_u8_m` and `svcnt_u8_x`, a merging
`svadd_u8_m` (so inactive lanes keep their old value, active lanes wrap mod
256), then advances `i` by `svcntb() * 8 = 8 * w` and recomputes the
predicate with `svwhilelt_b32` — as in the source, which mixes the b8
predicate of the first iteration with b32 predicates afterwards and strides
8 times past the bytes actually loaded. -/
def hammingU1x8Go (w : ℕ) (a b : ℕ → ℕ) (d : ℕ) :
    ℕ → ℕ → (ℕ → Bool) → (ℕ → ℕ) → (ℕ → ℕ)
  | 0, _, _, acc => acc
  | n + 1, i, pg, acc =>
      hammingU1x8Go w a b d n (i + 8 * w) (pgB32 (i + 8 * w) d)
        (fun j => if pg j
          then (acc j + popcnt8 (Nat.xor (a (i + j)) (b (i + j)))) % 256
          else acc j)

/-- `simsimd_hamming_u1x8sve` (SVE branch) with `w = svcntb()` byte lanes:
do-while loop starting from the `svwhilelt_b8 0 d` predicate, striding
`8 * w` per iteration, followed by the final reduction
`svaddv_u8(svptrue_b32(), d_vec)` — predicated with a *32-bit* `ptrue`,
which activates only every fourth byte lane of the sum. -/
def simsimd_hamming_u1x8sve (w : ℕ) (a b : ℕ → ℕ) (d : ℕ) : ℕ :=
  ∑ j ∈ Finset.range w,
    if j % 4 = 0 then
      hammingU1x8Go w a b d (max ((d + 8 * w - 1) / (8 * w)) 1) 0
        (pgB8 0 d) (fun _ => 0) j
    else 0

/-- Wrap an integer to the signed 16-bit range, the semantics of an
`epi16` lane of an AVX2 register. -/
def wrap16 (x : ℤ) : ℤ := (x + 2 ^ 15) % 2 ^ 16 - 2 ^ 15

/-- Body of the `simsimd_dot_i8x16avx2` loop at offset `i`: 16 bytes of
each input are loaded (`_mm_loadu_si128`), sign-extended to 16-bit lanes
(`_mm256_cvtepi8_epi16`), multiplied keeping the low 16 bits
(`_mm256_mullo_epi16`) and added into the 16-bit accumulator lanes
(`_mm256_add_epi16`, wrapping).  Note the loop stride is 4 while 16 lanes
are consumed, so consecutive iterations overlap. -/
def i8DotStep (a b : ℕ → ℤ) (i : ℕ) (acc : ℕ → ℤ) : ℕ → ℤ :=
  fun j => wrap16 (acc j + wrap16 (a (i + j) * b (i + j)))

/-- `_mm256_hadd_epi16(v, v)`: pairwise horizontal 16-bit add with
wrap-around, performed independently on the two 128-bit halves of the
256-bit register. -/
def mm256_hadd_epi16_dup (v : ℕ → ℤ) : ℕ → ℤ := fun j =>
  if j < 4 then wrap16 (v (2 * j) + v (2 * j + 1))
  else if j < 8 then wrap16 (v (2 * (j - 4)) + v (2 * (j - 4) + 1))
  else if j < 12 then wrap16 (v (8 + 2 * (j - 8)) + v (8 + 2 * (j - 8) + 1))
  else if j < 16 then wrap16 (v (8 + 2 * (j - 12)) + v (8 + 2 * (j - 12) + 1))
  else 0

/-- `simsimd_dot_i8x16avx2` (AVX2 branch): stride-4 loop of 16-lane
sign-extended multiply-accumulates, three `_mm256_hadd_epi16` reductions,
then `_mm256_cvtsi256_si32(ab_vec) & 0xFF` — the low 32 bits are lanes 0
and 1, and the `& 0xFF` keeps only the low byte of lane 0 (a nonnegative
value below 256). -/
def simsimd_dot_i8x16avx2 (a b : ℕ → ℤ) (d : ℕ) : ℤ :=
  (mm256_hadd_epi16_dup (mm256_hadd_epi16_dup (mm256_hadd_epi16_dup
    (strideFold 4 (i8DotStep a b) (d / 4) 0 (fun _ => 0)))) 0) % 256

/-- Exit analysis of the fixed-width loops `for (size_t i = 0; i != d;
i += incr)`: the counter visits exactly the values `(incr * k) % 2^64`
(`size_t` wraps modulo `2^64`), and the loop terminates iff some visited
value equals `d`. -/
def strideHits (incr d : ℕ) : Prop := ∃ k, (incr * k) % 2 ^ 64 = d

/-- `simsimd_dot_f32sve` including its conditional compilation: when
`__ARM_FEATURE_SVE` is not defined the function body is the `#else` branch,
which casts the arguments to void and returns `0`. -/
noncomputable def simsimd_dot_f32sve_cc (sve : Bool) (w : ℕ) (a b : ℕ → ℝ) (d : ℕ) : ℝ :=
  if sve then simsimd_dot_f32sve w a b d else 0

/-- `simsimd_hamming_u1x128sve` including its conditional compilation: when
`__ARM_NEON` is not defined the `#else` branch ignores the arguments and
returns `0`. -/
def simsimd_hamming_u1x128sve_cc (neon : Bool) (a b : ℕ → ℕ) (d : ℕ) : ℕ :=
  if neon then simsimd_hamming_u1x128sve a b d else 0

/-- C scalar types occurring in the kernel signatures. -/
inductive CType where
  | f32
  | f16
  | i8
  | u8
  | i32
  | usize
  deriving DecidableEq

/-- The metric a kernel implements. -/
inductive MetricKind where
  | dot
  | cos
  | euclid
  | hamming
  deriving DecidableEq

/-- Shape of one kernel's C signature: metric, element datatype, number of
array-pointer parameters, number of length parameters, return type.
`CType.f16` as a return type is the `simsimd_f16_t` typedef, which the
header defines as `int16_t` (a 16-bit value, not a 32-bit float). -/
structure KernelSig where
  metric : MetricKind
  dtype : CType
  ptrParams : ℕ
  lenParams : ℕ
  ret : CType
  deriving DecidableEq

/-- The signatures of all kernels in the header, in source order:
`dot_f32sve`, `dot_f16sve`, `cos_f32sve`, `euclidean_f32sve`,
`euclidean_f16sve`, `hamming_u1x8sve`, `dot_f32x4neon`, `dot_f16x8neon`,
`cos_f32x4neon`, `hamming_u1x128sve`, `dot_f32x4avx2`, `dot_i8x16avx2`,
`cos_f32x4avx2`, `hamming_u1x128avx512`.  Every kernel takes
`(T const* a, T const* b, size_t d)`: two pointers and one length. -/
def kernelSigs : List KernelSig :=
  [⟨MetricKind.dot, CType.f32, 2, 1, CType.f32⟩,
   ⟨MetricKind.dot, CType.f16, 2, 1, CType.f16⟩,
   ⟨MetricKind.cos, CType.f32, 2, 1, CType.f32⟩,
   ⟨MetricKind.euclid, CType.f32, 2, 1, CType.f32⟩,
   ⟨MetricKind.euclid, CType.f16, 2, 1, CType.f16⟩,
   ⟨MetricKind.hamming, CType.u8, 2, 1, CType.usize⟩,
   ⟨MetricKind.dot, CType.f32, 2, 1, CType.f32⟩,
   ⟨MetricKind.dot, CType.f16, 2, 1, CType.f16⟩,
   ⟨MetricKind.cos, CType.f32, 2, 1, CType.f32⟩,
   ⟨MetricKind.hamming, CType.u8, 2, 1, CType.usize⟩,
   ⟨MetricKind.dot, CType.f32, 2, 1, CType.f32⟩,
   ⟨MetricKind.dot, CType.i8, 2, 1, CType.i32⟩,
   ⟨MetricKind.cos, CType.f32, 2, 1, CType.f32⟩,
   ⟨MetricKind.hamming, CType.u8, 2, 1, CType.usize⟩]

/-- The signature shape asserted by the spec: two pointers, two lengths,
and a 32-bit float return except for Hamming kernels. -/
def c4Stated (s : KernelSig) : Bool :=
  s.ptrParams == 2 && s.lenParams == 2 &&
    (if s.metric == MetricKind.hamming
      then s.ret == CType.usize
      else s.ret == CType.f32)

/-- The signature shape the header actually has: two pointers, one length,
and a return type determined by the element datatype (`f32` kernels return
`f32`, `f16` kernels return the 16-bit `simsimd_f16_t` typedef, the `i8`
dot kernel returns `int32_t`, Hamming kernels return `size_t`). -/
def c4Amended (s : KernelSig) : Bool :=
  s.ptrParams == 2 && s.lenParams == 1 &&
    (match s.dtype with
     | CType.f32 => s.ret == CType.f32
     | CType.f16 => s.ret == CType.f16
     | CType.i8 => s.ret == CType.i32
     | CType.u8 => s.ret == CType.usize
     | _ => false)

/-- The spec's worked inner-product example: `a = [1,2,3,4]`. -/
noncomputable def exA : ℕ → ℝ := fun k =>
  if k = 0 then 1 else if k = 1 then 2 else if k = 2 then 3
  else if k = 3 then 4 else 0

/-- The spec's worked inner-product example: `b = [4,3,2,1]`. -/
noncomputable def exB : ℕ → ℝ := fun k =>
  if k = 0 then 4 else if k = 1 then 3 else if k = 2 then 2
  else if k = 3 then 1 else 0

/-- Euclidean counterexample input: `a = [3]` (length 1). -/
noncomputable def cexA : ℕ → ℝ := fun k => if k = 0 then 3 else 0

/-- Euclidean counterexample input: `b = [0]` (length 1). -/
noncomputable def cexB : ℕ → ℝ := fun _ => 0

/-- Int8 failing input for the AVX2 dot kernel: the 16-element vector with
a single `1` at index 8. -/
def ex8 : ℕ → ℤ := fun k => if k = 8 then 1 else 0

/-! ## Reduction lemmas for the loop models -/

/-- Lane sum of a predicated SVE accumulation loop: after `n` iterations
from offset `i`, the `w` lanes together hold the old lane sum plus every
in-bounds contribution `g k` for `k ∈ [i, i + n*w)`. -/
lemma strideFold_sveStep_sum {M : Type} [AddCommMonoid M] (w : ℕ) (g : ℕ → M)
    (d : ℕ) (n : ℕ) :
    ∀ (i : ℕ) (acc : ℕ → M),
      ∑ j ∈ Finset.range w, strideFold w (sveStep g d) n i acc j
        = (∑ j ∈ Finset.range w, acc j)
          + ∑ k ∈ Finset.Ico i (i + n * w), (if k < d then g k else 0) := by
  induction n with
  | zero => intro i acc; simp [strideFold]
  | succ n ih =>
      intro i acc
      have hstep : strideFold w (sveStep g d) (n + 1) i acc
          = strideFold w (sveStep g d) n (i + w) (sveStep g d i acc) := rfl
      rw [hstep, ih (i + w) (sveStep g d i acc)]
      have harr : i + w + n * w = i + (n + 1) * w := by ring
      rw [harr]
      have hacc : ∑ j ∈ Finset.range w, sveStep g d i acc j
          = (∑ j ∈ Finset.range w, acc j)
            + ∑ j ∈ Finset.range w, (if i + j < d then g (i + j) else 0) := by
        simp [sveStep, Finset.sum_add_distrib]
      have hico : ∑ k ∈ Finset.Ico i (i + w), (if k < d then g k else 0)
          = ∑ j ∈ Finset.range w, (if i + j < d then g (i + j) else 0) := by
        rw [Finset.sum_Ico_eq_sum_range]
        simp
      have hsplit : (∑ k ∈ Finset.Ico i (i + w), (if k < d then g k else 0))
            + ∑ k ∈ Finset.Ico (i + w) (i + (n + 1) * w), (if k < d then g k else 0)
          = ∑ k ∈ Finset.Ico i (i + (n + 1) * w), (if k < d then g k else 0) := by
        refine Finset.sum_Ico_consecutive _ (Nat.le_add_right i w) ?_
        have hle : w ≤ (n + 1) * w := Nat.le_mul_of_pos_left w (Nat.succ_pos n)
        exact Nat.add_le_add_left hle i
      rw [hacc, ← hico, add_assoc, hsplit]

/-- Lane sum of an unpredicated fixed-width accumulation loop: after `n`
iterations from offset `i`, the `w` lanes together hold the old lane sum
plus every contribution `g k` for `k ∈ [i, i + n*w)`. -/
lemma strideFold_fixedStep_sum {M : Type} [AddCommMonoid M] (w : ℕ) (g : ℕ → M)
    (n : ℕ) :
    ∀ (i : ℕ) (acc : ℕ → M),
      ∑ j ∈ Finset.range w, strideFold w (fixedStep g) n i acc j
        = (∑ j ∈ Finset.range w, acc j) + ∑ k ∈ Finset.Ico i (i + n * w), g k := by
  induction n with
  | zero => intro i acc; simp [strideFold]
  | succ n ih =>
      intro i acc
      have hstep : strideFold w (fixedStep g) (n + 1) i acc
          = strideFold w (fixedStep g) n (i + w) (fixedStep g i acc) := rfl
      rw [hstep, ih (i + w) (fixedStep g i acc)]
      have harr : i + w + n * w = i + (n + 1) * w := by ring
      rw [harr]
      have hacc : ∑ j ∈ Finset.range w, fixedStep g i acc j
          = (∑ j ∈ Finset.range w, acc j) + ∑ j ∈ Finset.range w, g (i + j) := by
        simp [fixedStep, Finset.sum_add_distrib]
      have hico : ∑ k ∈ Finset.Ico i (i + w), g k
          = ∑ j ∈ Finset.range w, g (i + j) := by
        rw [Finset.sum_Ico_eq_sum_range]
        simp
      have hsplit : (∑ k ∈ Finset.Ico i (i + w), g k)
            + ∑ k ∈ Finset.Ico (i + w) (i + (n + 1) * w), g k
          = ∑ k ∈ Finset.Ico i (i + (n + 1) * w), g k := by
        refine Finset.sum_Ico_consecutive _ (Nat.le_add_right i w) ?_
        have hle : w ≤ (n + 1) * w := Nat.le_mul_of_pos_left w (Nat.succ_pos n)
        exact Nat.add_le_add_left hle i
      rw [hacc, ← hico, add_assoc, hsplit]

/-- The SVE do-while loop runs enough iterations to cover all `d`
elements. -/
lemma le_sveIters_mul (w d : ℕ) (hw : 0 < w) : d ≤ sveIters w d * w := by
  rcases Nat.eq_zero_or_pos d with hd | hd
  · simp [hd]
  · have h1 : d + w - 1 = (d - 1) + w := by omega
    have h2 : sveIters w d = (d - 1) / w + 1 := by
      rw [sveIters, h1, Nat.add_div_right _ hw]
      exact Nat.max_eq_left (Nat.le_add_left 1 _)
    have h3 := Nat.div_add_mod (d - 1) w
    have h4 : (d - 1) % w < w := Nat.mod_lt _ hw
    have h5 : ((d - 1) / w + 1) * w = w * ((d - 1) / w) + w := by ring
    rw [h2, h5]
    omega

/-- A guarded sum over a long enough initial segment is the sum over
`range d`. -/
lemma sum_Ico_ite_of_le {M : Type} [AddCommMonoid M] (g : ℕ → M) (d m : ℕ)
    (hdm : d ≤ m) :
    ∑ k ∈ Finset.Ico 0 m, (if k < d then g k else 0)
      = ∑ k ∈ Finset.range d, g k := by
  rw [← Finset.sum_Ico_consecutive _ (Nat.zero_le d) hdm]
  have h1 : ∑ k ∈ Finset.Ico 0 d, (if k < d then g k else 0)
      = ∑ k ∈ Finset.range d, g k := by
    rw [Finset.range_eq_Ico]
    refine Finset.sum_congr rfl (fun k hk => ?_)
    rw [Finset.mem_Ico] at hk
    simp [hk.2]
  have h2 : ∑ k ∈ Finset.Ico d m, (if k < d then g k else 0) = 0 :=
    Finset.sum_eq_zero (fun k hk => by
      rw [Finset.mem_Ico] at hk
      simp [Nat.not_lt.mpr hk.1])
  rw [h1, h2, add_zero]

/-- A full SVE predicated accumulation over `d` elements reduces, via
`svaddv`, to the plain sum of the contributions. -/
lemma sveReduce_eq {M : Type} [AddCommMonoid M] (w : ℕ) (hw : 0 < w)
    (g : ℕ → M) (d : ℕ) :
    ∑ j ∈ Finset.range w,
        strideFold w (sveStep g d) (sveIters w d) 0 (fun _ => 0) j
      = ∑ k ∈ Finset.range d, g k := by
  rw [strideFold_sveStep_sum]
  simp only [Finset.sum_const_zero, zero_add, Nat.zero_add]
  exact sum_Ico_ite_of_le g d _ (le_sveIters_mul w d hw)

/-- A fixed-width accumulation over `d` elements (with `w ∣ d`) reduces to
the plain sum of the contributions. -/
lemma fixedReduce_eq {M : Type} [AddCommMonoid M] (w : ℕ) (g : ℕ → M)
    (d : ℕ) (hd : w ∣ d) :
    ∑ j ∈ Finset.range w,
        strideFold w (fixedStep g) (d / w) 0 (fun _ => 0) j
      = ∑ k ∈ Finset.range d, g k := by
  rw [strideFold_fixedStep_sum]
  simp [Nat.div_mul_cancel hd]

/-- Two `_mm_hadd_ps` self-adds put the 4-lane total into lane 0. -/
lemma mm_hadd_ps_reduce (v : ℕ → ℝ) :
    mm_hadd_ps_dup (mm_hadd_ps_dup v) 0 = ∑ j ∈ Finset.range 4, v j := by
  rw [← Fin.sum_univ_eq_sum_range, Fin.sum_univ_four]
  show mm_hadd_ps_dup (mm_hadd_ps_dup v) 0 = v 0 + v 1 + v 2 + v 3
  rw [mm_hadd_ps_dup, mm_hadd_ps_dup]
  norm_num [mm_hadd_ps_dup]
  ring

/-- A fold of a triple of independently-updated states is the triple of the
independent folds. -/
lemma strideFold_prod3 {σ τ υ : Type} (w : ℕ) (f : ℕ → σ → σ) (g : ℕ → τ → τ)
    (h : ℕ → υ → υ) (n : ℕ) :
    ∀ (i : ℕ) (s : σ × τ × υ),
      strideFold w (fun i p => (f i p.1, g i p.2.1, h i p.2.2)) n i s
        = (strideFold w f n i s.1, strideFold w g n i s.2.1,
           strideFold w h n i s.2.2) := by
  induction n with
  | zero => intro i s; rfl
  | succ n ih =>
      intro i s
      exact ih (i + w) (f i s.1, g i s.2.1, h i s.2.2)

/-! ## Kernel-level equations -/

/-- The SVE f32 inner-product kernel computes the exact sum of products
(in the real-valued idealization), for any vector length `d` and any SVE
lane count `w > 0`. -/
lemma dot_f32sve_eq (w : ℕ) (hw : 0 < w) (a b : ℕ → ℝ) (d : ℕ) :
    simsimd_dot_f32sve w a b d = ∑ k ∈ Finset.range d, a k * b k := by
  rw [simsimd_dot_f32sve]
  exact sveReduce_eq w hw _ d

/-- The NEON f32 inner-product kernel computes the exact sum of products
on lengths divisible by its stride 4. -/
lemma dot_f32x4neon_eq (a b : ℕ → ℝ) (d : ℕ) (hd : 4 ∣ d) :
    simsimd_dot_f32x4neon a b d = ∑ k ∈ Finset.range d, a k * b k := by
  rw [simsimd_dot_f32x4neon]
  exact fixedReduce_eq 4 _ d hd

/-- The AVX2 f32 inner-product kernel computes the exact sum of products
on lengths divisible by its stride 4. -/
lemma dot_f32x4avx2_eq (a b : ℕ → ℝ) (d : ℕ) (hd : 4 ∣ d) :
    simsimd_dot_f32x4avx2 a b d = ∑ k ∈ Finset.range d, a k * b k := by
  rw [simsimd_dot_f32x4avx2, mm_hadd_ps_reduce]
  exact fixedReduce_eq 4 _ d hd

/-- The triple cosine fold splits into three independent folds. -/
lemma cosFoldsSve_eq (w : ℕ) (a b : ℕ → ℝ) (d n : ℕ) :
    cosFoldsSve w a b d n
      = (strideFold w (sveStep (fun k => a k * b k) d) n 0 (fun _ => 0),
         strideFold w (sveStep (fun k => a k * a k) d) n 0 (fun _ => 0),
         strideFold w (sveStep (fun k => b k * b k) d) n 0 (fun _ => 0)) :=
  strideFold_prod3 w _ _ _ n 0 _

/-- The triple fixed-width cosine fold splits into three independent
folds. -/
lemma cosFoldsFixed_eq (a b : ℕ → ℝ) (n : ℕ) :
    cosFoldsFixed a b n
      = (strideFold 4 (fixedStep (fun k => a k * b k)) n 0 (fun _ => 0),
         strideFold 4 (fixedStep (fun k => a k * a k)) n 0 (fun _ => 0),
         strideFold 4 (fixedStep (fun k => b k * b k)) n 0 (fun _ => 0)) :=
  strideFold_prod3 4 _ _ _ n 0 _

/-- The SVE f32 cosine kernel computes
`ip(a,b) / (sqrt(ip(a,a)) * sqrt(ip(b,b)))`. -/
lemma cos_f32sve_eq (w : ℕ) (hw : 0 < w) (a b : ℕ → ℝ) (d : ℕ) :
    simsimd_cos_f32sve w a b d
      = (∑ k ∈ Finset.range d, a k * b k) /
          (Real.sqrt (∑ k ∈ Finset.range d, a k * a k) *
           Real.sqrt (∑ k ∈ Finset.range d, b k * b k)) := by
  rw [simsimd_cos_f32sve, cosFoldsSve_eq]
  dsimp only
  rw [sveReduce_eq w hw (fun k => a k * b k) d,
    sveReduce_eq w hw (fun k => a k * a k) d,
    sveReduce_eq w hw (fun k => b k * b k) d]

/-- The NEON f32 cosine kernel computes
`ip(a,b) / (sqrt(ip(a,a)) * sqrt(ip(b,b)))` on lengths divisible by 4. -/
lemma cos_f32x4neon_eq (a b : ℕ → ℝ) (d : ℕ) (hd : 4 ∣ d) :
    simsimd_cos_f32x4neon a b d
      = (∑ k ∈ Finset.range d, a k * b k) /
          (Real.sqrt (∑ k ∈ Finset.range d, a k * a k) *
           Real.sqrt (∑ k ∈ Finset.range d, b k * b k)) := by
  rw [simsimd_cos_f32x4neon, cosFoldsFixed_eq]
  dsimp only
  rw [fixedReduce_eq 4 (fun k => a k * b k) d hd,
    fixedReduce_eq 4 (fun k => a k * a k) d hd,
    fixedReduce_eq 4 (fun k => b k * b k) d hd]

/-- The AVX2 f32 cosine kernel computes
`ip(a,b) / (sqrt(ip(a,a)) * sqrt(ip(b,b)))` on lengths divisible by 4. -/
lemma cos_f32x4avx2_eq (a b : ℕ → ℝ) (d : ℕ) (hd : 4 ∣ d) :
    simsimd_cos_f32x4avx2 a b d
      = (∑ k ∈ Finset.range d, a k * b k) /
          (Real.sqrt (∑ k ∈ Finset.range d, a k * a k) *
           Real.sqrt (∑ k ∈ Finset.range d, b k * b k)) := by
  rw [simsimd_cos_f32x4avx2, cosFoldsFixed_eq]
  dsimp only
  rw [mm_hadd_ps_reduce, mm_hadd_ps_reduce, mm_hadd_ps_reduce,
    fixedReduce_eq 4 (fun k => a k * b k) d hd,
    fixedReduce_eq 4 (fun k => a k * a k) d hd,
    fixedReduce_eq 4 (fun k => b k * b k) d hd]

/-- The SVE f32 "euclidean" kernel returns the square root of the sum of
squared differences — the non-squared Euclidean distance. -/
lemma euclidean_f32sve_eq (w : ℕ) (hw : 0 < w) (a b : ℕ → ℝ) (d : ℕ) :
    simsimd_euclidean_f32sve w a b d
      = Real.sqrt (∑ k ∈ Finset.range d, (a k - b k) * (a k - b k)) := by
  rw [simsimd_euclidean_f32sve, sveReduce_eq w hw _ d]

/-- The SVE f16 "euclidean" kernel returns the square root of the sum of
squared differences, truncated to an integer by the `static_cast` to the
`int16_t`-typedef'd return type. -/
lemma euclidean_f16sve_eq (w : ℕ) (hw : 0 < w) (a b : ℕ → ℝ) (d : ℕ) :
    simsimd_euclidean_f16sve w a b d
      = ⌊Real.sqrt (∑ k ∈ Finset.range d, (a k - b k) * (a k - b k))⌋ := by
  rw [simsimd_euclidean_f16sve, sveReduce_eq w hw _ d]

/-- A predicated accumulation of the zero contribution leaves the zero
accumulator unchanged. -/
lemma strideFold_sveStep_zero {M : Type} [AddCommMonoid M] (w d : ℕ) (n : ℕ) :
    ∀ i : ℕ,
      strideFold w (sveStep (fun _ => (0 : M)) d) n i (fun _ => 0)
        = fun _ => 0 := by
  induction n with
  | zero => intro i; rfl
  | succ n ih =>
      intro i
      have hz : sveStep (fun _ => (0 : M)) d i (fun _ => 0) = fun _ => 0 := by
        funext j
        simp [sveStep]
      show strideFold w (sveStep (fun _ => (0 : M)) d) n (i + w)
          (sveStep (fun _ => (0 : M)) d i (fun _ => 0)) = fun _ => 0
      rw [hz]
      exact ih (i + w)

/-- The wrapped (mod-256) Hamming fold is the plain fold of the per-byte
popcounts, reduced mod 256 lane-wise. -/
lemma hammingFold_mod (a b : ℕ → ℕ) (n : ℕ) :
    ∀ (i : ℕ) (acc acc' : ℕ → ℕ), (∀ j, acc j = acc' j % 256) →
      ∀ j, strideFold 16 (hammingStep a b) n i acc j
        = strideFold 16
            (fixedStep (fun k => popcnt8 (Nat.xor (a k) (b k)))) n i acc' j
            % 256 := by
  induction n with
  | zero => intro i acc acc' hmod j; exact hmod j
  | succ n ih =>
      intro i acc acc' hmod j
      refine ih (i + 16) _ _ (fun j' => ?_) j
      rw [hammingStep, fixedStep]
      rw [hmod j']
      omega

/-- On byte lengths divisible by 16, `simsimd_hamming_u1x128sve` returns
the total popcount of `a XOR b` reduced modulo 256 (both the `uint8`
accumulator lanes and the `uint8`-valued `vaddvq_u8` reduction wrap). -/
lemma hamming_u1x128_eq (a b : ℕ → ℕ) (d : ℕ) (hd : 16 ∣ d) :
    simsimd_hamming_u1x128sve a b d
      = (∑ k ∈ Finset.range d, popcnt8 (Nat.xor (a k) (b k))) % 256 := by
  rw [simsimd_hamming_u1x128sve]
  have hlane : ∀ j ∈ Finset.range 16,
      strideFold 16 (hammingStep a b) (d / 16) 0 (fun _ => 0) j
        = strideFold 16
            (fixedStep (fun k => popcnt8 (Nat.xor (a k) (b k)))) (d / 16) 0
            (fun _ => 0) j % 256 :=
    fun j _ => hammingFold_mod a b (d / 16) 0 (fun _ => 0) (fun _ => 0)
      (fun _ => rfl) j
  rw [Finset.sum_congr rfl hlane, ← Finset.sum_nat_mod,
    fixedReduce_eq 16 _ d hd]

/-- The `i != d` exit condition with a power-of-two stride is reached
exactly on the multiples of the stride. -/
lemma strideHits_iff (incr d : ℕ) (hincr : incr ∣ 2 ^ 64) (hd : d < 2 ^ 64) :
    strideHits incr d ↔ incr ∣ d := by
  constructor
  · rintro ⟨k, hk⟩
    rw [← hk]
    exact (Nat.dvd_mod_iff hincr).mpr ⟨k, rfl⟩
  · rintro ⟨m, rfl⟩
    exact ⟨m, Nat.mod_eq_of_lt hd⟩

/-- Evaluation of the spec's inner-product example. -/
lemma exDot_eval : ∑ k ∈ Finset.range 4, exA k * exB k = 20 := by
  rw [Finset.sum_range_succ, Finset.sum_range_succ, Finset.sum_range_succ,
    Finset.sum_range_one]
  norm_num [exA, exB]

/-! ## Claims -/

/-- Claim C1: for equal-length Float32 vectors, each Float32 inner-product
kernel — SVE (any positive lane count, any length) and the fixed-width
NEON/AVX2 variants (on the lengths divisible by their stride 4, where their
`i != d` loops terminate) — returns the sum of `a[i] * b[i]` in the
real-valued idealization; in particular all three return `20` on the
example `a = [1,2,3,4]`, `b = [4,3,2,1]`. -/
theorem claim_C1_dot_kernels (w : ℕ) (hw : 0 < w) (a b : ℕ → ℝ) :
    (∀ d, simsimd_dot_f32sve w a b d = ∑ k ∈ Finset.range d, a k * b k) ∧
    (∀ d, 4 ∣ d →
      simsimd_dot_f32x4neon a b d = ∑ k ∈ Finset.range d, a k * b k ∧
      simsimd_dot_f32x4avx2 a b d = ∑ k ∈ Finset.range d, a k * b k) ∧
    simsimd_dot_f32sve 4 exA exB 4 = 20 ∧
    simsimd_dot_f32x4neon exA exB 4 = 20 ∧
    simsimd_dot_f32x4avx2 exA exB 4 = 20 := by
  refine ⟨fun d => dot_f32sve_eq w hw a b d,
    fun d hd => ⟨dot_f32x4neon_eq a b d hd, dot_f32x4avx2_eq a b d hd⟩,
    ?_, ?_, ?_⟩
  · rw [dot_f32sve_eq 4 (by norm_num) exA exB 4, exDot_eval]
  · rw [dot_f32x4neon_eq exA exB 4 (by norm_num), exDot_eval]
  · rw [dot_f32x4avx2_eq exA exB 4 (by norm_num), exDot_eval]

/-- Witness for C1 at `w = 4` and the spec's example vectors. -/
theorem claim_C1_dot_kernels_witness :
    0 < 4 ∧ simsimd_dot_f32x4avx2 exA exB 4 = 20 :=
  ⟨by norm_num, (claim_C1_dot_kernels 4 (by norm_num) exA exB).2.2.2.2⟩

/-- Claim C2 (counterexample): the claim says the kernel returns the sum of
squared differences, but on `a = [3]`, `b = [0]` (`d = 1`, SVE lane count
4) `simsimd_euclidean_f32sve` returns `3` — the square root — while the
claimed sum is `9`. -/
theorem claim_C2_squared_euclidean_cex :
    simsimd_euclidean_f32sve 4 cexA cexB 1 = 3 ∧
    (∑ k ∈ Finset.range 1, (cexA k - cexB k) * (cexA k - cexB k)) = 9 ∧
    (3 : ℝ) ≠ 9 := by
  have hsum : (∑ k ∈ Finset.range 1, (cexA k - cexB k) * (cexA k - cexB k))
      = 9 := by
    rw [Finset.sum_range_one]
    norm_num [cexA, cexB]
  refine ⟨?_, hsum, by norm_num⟩
  rw [euclidean_f32sve_eq 4 (by norm_num) cexA cexB 1, hsum,
    show (9 : ℝ) = 3 ^ 2 by norm_num]
  exact Real.sqrt_sq (by norm_num)

/-- Claim C2 (amended): the kernels named `euclidean` return the square
root of the sum of squared differences — the non-squared Euclidean
distance — and the Float16 variant further truncates that value to an
integer through its `int16_t`-typedef'd return type. -/
theorem claim_C2_euclidean_sqrt (w : ℕ) (hw : 0 < w) (a b : ℕ → ℝ) (d : ℕ) :
    simsimd_euclidean_f32sve w a b d
        = Real.sqrt (∑ k ∈ Finset.range d, (a k - b k) * (a k - b k)) ∧
    simsimd_euclidean_f16sve w a b d
        = ⌊Real.sqrt (∑ k ∈ Finset.range d, (a k - b k) * (a k - b k))⌋ :=
  ⟨euclidean_f32sve_eq w hw a b d, euclidean_f16sve_eq w hw a b d⟩

/-- Witness for the amended C2 at `w = 4`, `a = [3]`, `b = [0]`. -/
theorem claim_C2_euclidean_sqrt_witness :
    0 < 4 ∧ simsimd_euclidean_f32sve 4 cexA cexB 1
      = Real.sqrt (∑ k ∈ Finset.range 1,
          (cexA k - cexB k) * (cexA k - cexB k)) :=
  ⟨by norm_num, (claim_C2_euclidean_sqrt 4 (by norm_num) cexA cexB 1).1⟩

/-- Claim C3 (failing evaluation): on the spec's own example — 16-byte
arrays of `0xFF` vs `0x00`, i.e. 128 differing bits — the SVE Hamming
kernel with a 128-bit vector (`svcntb() = 16`) returns `32`, not `128`:
its final reduction `svaddv_u8(svptrue_b32(), d_vec)` is predicated with a
32-bit-element `ptrue` and therefore sums only every fourth byte lane (its
inter-iteration predicate and its 8-fold stride are likewise
inconsistent).  The NEON kernel does return `128` here, though its `uint8`
arithmetic wraps mod 256 on larger inputs. -/
theorem claim_C3_hamming_bug :
    simsimd_hamming_u1x8sve 16 (fun _ => 255) (fun _ => 0) 128 = 32 ∧
    simsimd_hamming_u1x128sve (fun _ => 255) (fun _ => 0) 16 = 128 ∧
    (32 : ℕ) ≠ 128 :=
  ⟨by decide, by decide, by norm_num⟩

/-- Claim C4 (counterexample): not every kernel matches the asserted
"two pointers, two lengths, f32 return except Hamming" shape — every
kernel takes a single length parameter, the Float16 kernels return the
16-bit `simsimd_f16_t` typedef, and the Int8 dot kernel returns
`int32_t`. -/
theorem claim_C4_signatures_cex : ¬ ∀ s ∈ kernelSigs, c4Stated s = true := by
  decide

/-- Claim C4 (amended): every kernel takes two array pointers and one
length parameter, and returns `f32` for Float32 kernels, the 16-bit
`simsimd_f16_t` typedef for Float16 kernels, `int32_t` for the Int8 dot
kernel, and a `size_t` count for Hamming kernels. -/
theorem claim_C4_signatures : ∀ s ∈ kernelSigs, c4Amended s = true := by
  decide

/-- Witness for the amended C4 at the Int8 AVX2 dot kernel's signature. -/
theorem claim_C4_signatures_witness :
    (⟨MetricKind.dot, CType.i8, 2, 1, CType.i32⟩ : KernelSig) ∈ kernelSigs ∧
    c4Amended ⟨MetricKind.dot, CType.i8, 2, 1, CType.i32⟩ = true :=
  ⟨by decide, claim_C4_signatures _ (by decide)⟩

/-- Claim C5 (failing evaluation): the Int8 AVX2 dot kernel does
sign-extend its lanes, but it is not exact even on a modest input: on the
16-element vectors `a = b` with a single `1` at index 8 it returns `2`
(its stride-4 loop re-reads overlapping 16-lane windows, so elements are
double-counted, and the final `& 0xFF` keeps only the low byte of the
first eight lanes' sum) while the exact inner product is `1`. -/
theorem claim_C5_i8dot_bug :
    simsimd_dot_i8x16avx2 ex8 ex8 16 = 2 ∧
    (∑ k ∈ Finset.range 16, ex8 k * ex8 k) = 1 ∧ (2 : ℤ) ≠ 1 :=
  ⟨by decide, by decide, by norm_num⟩

/-- Claim C6: each Float32 cosine kernel returns
`ip(a,b) / (sqrt(ip(a,a)) * sqrt(ip(b,b)))`, applying the division
unconditionally — there is no zero guard, the formula holds for all-zero
vectors as well (where the real-valued idealization renders the IEEE
`0/0` outcome as Lean's total division). -/
theorem claim_C6_cosine_formula (w : ℕ) (hw : 0 < w) (a b : ℕ → ℝ) :
    (∀ d, simsimd_cos_f32sve w a b d
        = (∑ k ∈ Finset.range d, a k * b k) /
            (Real.sqrt (∑ k ∈ Finset.range d, a k * a k) *
             Real.sqrt (∑ k ∈ Finset.range d, b k * b k))) ∧
    (∀ d, 4 ∣ d →
      simsimd_cos_f32x4neon a b d
          = (∑ k ∈ Finset.range d, a k * b k) /
              (Real.sqrt (∑ k ∈ Finset.range d, a k * a k) *
               Real.sqrt (∑ k ∈ Finset.range d, b k * b k)) ∧
      simsimd_cos_f32x4avx2 a b d
          = (∑ k ∈ Finset.range d, a k * b k) /
              (Real.sqrt (∑ k ∈ Finset.range d, a k * a k) *
               Real.sqrt (∑ k ∈ Finset.range d, b k * b k))) :=
  ⟨fun d => cos_f32sve_eq w hw a b d,
   fun d hd => ⟨cos_f32x4neon_eq a b d hd, cos_f32x4avx2_eq a b d hd⟩⟩

/-- Witness for C6 at `w = 4` on all-zero vectors: the division is still
performed on the zero denominator. -/
theorem claim_C6_cosine_formula_witness :
    0 < 4 ∧ simsimd_cos_f32sve 4 (fun _ => 0) (fun _ => 0) 4
      = (∑ k ∈ Finset.range 4, (0 : ℝ) * 0) /
          (Real.sqrt (∑ k ∈ Finset.range 4, (0 : ℝ) * 0) *
           Real.sqrt (∑ k ∈ Finset.range 4, (0 : ℝ) * 0)) :=
  ⟨by norm_num,
   (claim_C6_cosine_formula 4 (by norm_num) (fun _ => 0) (fun _ => 0)).1 4⟩

/-- Claim C7: a fixed-width kernel's loop `for (size_t i = 0; i != d;
i += incr)` exits iff the counter ever hits `d`; since the stride divides
`2^64`, the visited values are exactly the multiples of the stride (mod
`2^64`), so for `d < 2^64` the loop terminates iff the stride (4 for the
f32x4 NEON/AVX2 and i8x16 AVX2 kernels, 8 for f16x8 NEON, 16 for the
u1x128 NEON Hamming kernel) divides `d`, and never terminates
otherwise. -/
theorem claim_C7_loop_exit (d : ℕ) (hd : d < 2 ^ 64) :
    (strideHits 4 d ↔ 4 ∣ d) ∧ (strideHits 8 d ↔ 8 ∣ d) ∧
    (strideHits 16 d ↔ 16 ∣ d) :=
  ⟨strideHits_iff 4 d ⟨2 ^ 62, by norm_num⟩ hd,
   strideHits_iff 8 d ⟨2 ^ 61, by norm_num⟩ hd,
   strideHits_iff 16 d ⟨2 ^ 60, by norm_num⟩ hd⟩

/-- Witness for C7 at `d = 6`: no stride hits 6, so none of those loops
terminates on length 6. -/
theorem claim_C7_loop_exit_witness :
    6 < 2 ^ 64 ∧ ((strideHits 4 6 ↔ 4 ∣ 6) ∧ (strideHits 8 6 ↔ 8 ∣ 6) ∧
      (strideHits 16 6 ↔ 16 ∣ 6)) :=
  ⟨by norm_num, claim_C7_loop_exit 6 (by norm_num)⟩

/-- Claim C8: every Float32 cosine kernel returns exactly `1` on the pair
`(a, a)` for a vector with a nonzero in-range entry (SVE for any positive
lane count; the fixed-width kernels on their terminating lengths
`4 ∣ d`). -/
theorem claim_C8_cosine_self (w d : ℕ) (hw : 0 < w) (h4 : 4 ∣ d) (a : ℕ → ℝ)
    (hnz : ∃ k, k < d ∧ a k ≠ 0) :
    simsimd_cos_f32sve w a a d = 1 ∧ simsimd_cos_f32x4neon a a d = 1 ∧
    simsimd_cos_f32x4avx2 a a d = 1 := by
  obtain ⟨k0, hk0, hk0ne⟩ := hnz
  have hS : 0 < ∑ k ∈ Finset.range d, a k * a k :=
    Finset.sum_pos' (fun k _ => mul_self_nonneg (a k))
      ⟨k0, Finset.mem_range.mpr hk0, mul_self_pos.mpr hk0ne⟩
  have key : (∑ k ∈ Finset.range d, a k * a k) /
      (Real.sqrt (∑ k ∈ Finset.range d, a k * a k) *
       Real.sqrt (∑ k ∈ Finset.range d, a k * a k)) = 1 := by
    rw [Real.mul_self_sqrt hS.le]
    exact div_self hS.ne'
  exact ⟨by rw [cos_f32sve_eq w hw a a d]; exact key,
    by rw [cos_f32x4neon_eq a a d h4]; exact key,
    by rw [cos_f32x4avx2_eq a a d h4]; exact key⟩

/-- Witness for C8 at `w = 4`, `d = 4`, `a = [1,1,1,1]`. -/
theorem claim_C8_cosine_self_witness :
    (0 < 4 ∧ 4 ∣ 4 ∧ ∃ k, k < 4 ∧ (1 : ℝ) ≠ 0) ∧
    simsimd_cos_f32sve 4 (fun _ => 1) (fun _ => 1) 4 = 1 :=
  ⟨⟨by norm_num, by norm_num, 0, by norm_num, by norm_num⟩,
   (claim_C8_cosine_self 4 4 (by norm_num) (by norm_num) (fun _ => 1)
     ⟨0, by norm_num, by norm_num⟩).1⟩

/-- Claim C9: the Euclidean-distance kernel cited by the spec
(`simsimd_euclidean_f32sve`) is symmetric in its two inputs, and returns
`0` on the pair `(a, a)` — for any lane count, length, and vectors. -/
theorem claim_C9_euclidean_sym (w d : ℕ) (a b : ℕ → ℝ) :
    simsimd_euclidean_f32sve w a b d = simsimd_euclidean_f32sve w b a d ∧
    simsimd_euclidean_f32sve w a a d = 0 := by
  constructor
  · have hg : (fun k => (a k - b k) * (a k - b k))
        = fun k => (b k - a k) * (b k - a k) := by
      funext k; ring
    rw [simsimd_euclidean_f32sve, simsimd_euclidean_f32sve, hg]
  · have hg : (fun k => (a k - a k) * (a k - a k)) = fun _ : ℕ => (0 : ℝ) := by
      funext k; ring
    rw [simsimd_euclidean_f32sve, hg,
      strideFold_sveStep_zero w d (sveIters w d) 0]
    simp

/-- Claim C10: when a kernel's instruction set is not enabled at compile
time, the `#else` branch casts its arguments to void and returns `0` for
every input — in particular the Hamming kernel reports distance `0` on
maximally different arrays (which the enabled branch maps to `128`), with
no error signal. -/
theorem claim_C10_fallback_zero :
    (∀ (w d : ℕ) (a b : ℕ → ℝ), simsimd_dot_f32sve_cc false w a b d = 0) ∧
    (∀ (d : ℕ) (a b : ℕ → ℕ), simsimd_hamming_u1x128sve_cc false a b d = 0) ∧
    simsimd_hamming_u1x128sve_cc false (fun _ => 255) (fun _ => 0) 16 = 0 ∧
    simsimd_hamming_u1x128sve_cc true (fun _ => 255) (fun _ => 0) 16 = 128 :=
  ⟨fun _ _ _ _ => rfl, fun _ _ _ => rfl, rfl, by decide⟩
